import Mathlib

/-!
Verification of the `ast_roller` dice-expression interpreter.

This file shallowly embeds the core of the repository
(`src/ast_roller/evaluators.py`, `src/ast_roller/results.py`,
`src/ast_roller/grammar.py`) in Lean:

* Python numbers (`int` / `float`) become `PyNum`, with `float` modelled as
  an exact rational (all values appearing in the statements below are exactly
  representable, so no floating-point rounding is lost).
* Python `dict` / `collections.defaultdict(int)` becomes an insertion-ordered
  association list `DMap`; a `defaultdict` read inserts a zero entry for a
  missing key, exactly as in CPython.
* `random.randint(lo, hi)` is modelled as consuming one word from an ambient
  stream of naturals and mapping it into `[lo, hi]`; the evaluation state also
  records the `(lo, hi)` bounds of every draw in order, so draw-order
  properties are expressible.
* Evaluator nodes become the inductive `Evtor`; `evaluate` becomes `eval`,
  a state-passing function returning `Except PyErr (ResultNode × RState)`.
* The Lark transformer `CalculateTree` becomes `transform` over concrete
  parse trees (`PNode`).
-/

namespace AstRoller

/-- Python exception kinds raised by the embedded code. -/
inductive PyErr where
  | valueError
  | zeroDivision
  | typeError
  | nameError
  deriving DecidableEq

/-- A Python number: `int` or `float` (floats modelled as exact rationals). -/
inductive PyNum where
  | int (n : Int)
  | float (q : ℚ)
  deriving DecidableEq

namespace PyNum

/-- The numeric value of a Python number. -/
def toQ : PyNum → ℚ
  | int n => (n : ℚ)
  | float q => q

/-- Whether the value is a Python `float`. -/
def isFloat : PyNum → Bool
  | int _ => false
  | float _ => true

end PyNum

/-- Truncation of a rational toward zero, as Python `int(float)` does:
`Int.tdiv` is T-division, which rounds the quotient toward zero
(`Int.tdiv (-35) 10 = -3`, matching Python `int(-3.5) = -3`), unlike this
toolchain's `Int` `/`, which is floor division. -/
def truncQ (q : ℚ) : Int := q.num.tdiv (q.den : Int)

/-- Python `int(x)` on a number: the identity on `int`, truncation toward
zero on `float` (`evaluators.py` lines 47, 51, 66). -/
def pyInt : PyNum → Int
  | .int n => n
  | .float q => truncQ q

/-- Python `+` on two numbers: `int` when both are `int`, else `float`. -/
def pyAdd : PyNum → PyNum → PyNum
  | .int a, .int b => .int (a + b)
  | a, b => .float (a.toQ + b.toQ)

/-- Python `-` on two numbers. -/
def pySub : PyNum → PyNum → PyNum
  | .int a, .int b => .int (a - b)
  | a, b => .float (a.toQ - b.toQ)

/-- Python `*` on two numbers. -/
def pyMul : PyNum → PyNum → PyNum
  | .int a, .int b => .int (a * b)
  | a, b => .float (a.toQ * b.toQ)

/-- A `raw_result` value: a number or a (possibly nested) list of values. -/
inductive Raw where
  | num (v : PyNum)
  | list (xs : List Raw)

/-- Python `int(x)` on a raw result; a list argument raises `TypeError`. -/
def pyIntOfRaw : Raw → Except PyErr Int
  | .num v => .ok (pyInt v)
  | .list _ => .error .typeError

/-- Insertion-ordered map from die face to count, modelling a Python
`dict[int, int]` / `defaultdict(int)` (keys unique, insertion order kept). -/
abbrev DMap := List (Int × Nat)

/-- Python `k in d` / plain lookup on a dict: value of the first (unique)
entry for the key. -/
def dfind : DMap → Int → Option Nat
  | [], _ => none
  | (a, b) :: t, k => if a = k then some b else dfind t k

/-- `d[k] = v` on a Python dict: overwrite in place, or append a new entry. -/
def dset : DMap → Int → Nat → DMap
  | [], k, v => [(k, v)]
  | (a, b) :: t, k, v => if a = k then (k, v) :: t else (a, b) :: dset t k v

/-- `d[k] += 1` on a `defaultdict(int)`: missing keys count as zero and are
created by the update. -/
def bump (m : DMap) (k : Int) : DMap :=
  match dfind m k with
  | some v => dset m k (v + 1)
  | none => m ++ [(k, 1)]

/-- The count stored for a face, with missing keys reading as zero
(the value a `defaultdict(int)` read returns). -/
def dgetD (m : DMap) (k : Int) : Nat := (dfind m k).getD 0

/-- A read `d[k]` on a `defaultdict(int)`: returns the stored count and the
(possibly grown) dict — CPython *inserts* a zero entry for a missing key. -/
def ddRead (m : DMap) (k : Int) : Nat × DMap :=
  match dfind m k with
  | some v => (v, m)
  | none => (0, m ++ [(k, 0)])

/-- `sum([die * count for die, count in d.items()])`
(`evaluators.py` line 180). -/
def sumProd (m : DMap) : Int := (m.map fun p => p.1 * (p.2 : Int)).sum

/-- Clamp one Python slice index to `[0, n]` (negative indices count from
the end, as in Python). -/
def pyIdx (n : Nat) (i : Int) : Nat :=
  if i < 0 then (max 0 ((n : Int) + i)).toNat else min i.toNat n

/-- Python list slice `l[a:b]` with full Python index semantics. -/
def pySlice {α : Type} (l : List α) (a b : Int) : List α :=
  (l.take (pyIdx l.length b)).drop (pyIdx l.length a)

/-- Python `sorted(rolls)` (ascending). -/
def pySorted (l : List Int) : List Int := l.insertionSort (· ≤ ·)

/-! ### Dice directives (`DiceRollEvaluatorNode.parse_directives` / `apply_directives`) -/

/-- `keep`/`drop` marker of a directive token. -/
inductive KD where
  | keep
  | drop
  deriving DecidableEq

/-- `high`/`low` marker of a directive token. -/
inductive HL where
  | high
  | low
  deriving DecidableEq

/-- A directive token that matched `[kd][hl]\d+`, already split into its
three regex groups. -/
structure DirTok where
  kd : KD
  hl : HL
  count : Nat
  deriving DecidableEq

/-- Insertion-ordered map from direction to count, modelling one of the two
inner dicts of `directives = { 'drop': {}, 'keep': {} }`. -/
abbrev HLMap := List (HL × Nat)

/-- `d[k] = v` on a Python dict keyed by direction. -/
def setHL : HLMap → HL → Nat → HLMap
  | [], k, v => [(k, v)]
  | (a, b) :: t, k, v => if a = k then (k, v) :: t else (a, b) :: setHL t k v

/-- The parsed `directives` dict of a dice roll. -/
structure Directives where
  drop : HLMap
  keep : HLMap
  deriving DecidableEq

/-- `DiceRollEvaluatorNode.parse_directives` (`evaluators.py` lines 133-150):
each token writes `directives[keep_drop][high_low] = count` (an assignment,
so a later token for the same direction overwrites the earlier one), then at
most one keep direction is allowed. -/
def parse_directives (toks : List DirTok) : Except PyErr Directives :=
  let d := toks.foldl
    (fun d t =>
      match t.kd with
      | .keep => ⟨d.drop, setHL d.keep t.hl t.count⟩
      | .drop => ⟨setHL d.drop t.hl t.count, d.keep⟩)
    ⟨[], []⟩
  if d.keep.length > 1 then .error .valueError else .ok d

/-- One iteration of the Drop loop (`evaluators.py` lines 160-168) over the
state `(left_idx, right_idx, to_drop)`; slices read the full sorted array,
exactly as `sorted_rolls[-count:]` / `sorted_rolls[:count]` do. -/
def dropStep (sorted : List Int) (acc : Int × Int × DMap) (d : HL × Nat) :
    Int × Int × DMap :=
  match d.1 with
  | .high =>
      (acc.1, acc.2.1 - (d.2 : Int),
        (pySlice sorted (-(d.2 : Int)) (sorted.length : Int)).foldl bump acc.2.2)
  | .low =>
      (acc.1 + (d.2 : Int), acc.2.1,
        (pySlice sorted 0 (d.2 : Int)).foldl bump acc.2.2)

/-- One iteration of the Keep loop (`evaluators.py` lines 170-176), with the
left/right cursors fixed after the drops. -/
def keepStep (sorted : List Int) (left right : Int) (m : DMap) (d : HL × Nat) :
    DMap :=
  match d.1 with
  | .high => (pySlice sorted (right - (d.2 : Int)) right).foldl bump m
  | .low => (pySlice sorted left (left + (d.2 : Int))).foldl bump m

/-- `DiceRollEvaluatorNode.apply_directives` (`evaluators.py` lines 152-182):
returns `(result, to_keep, to_drop)`. -/
def apply_directives (ds : Directives) (rolls : List Int) : Int × DMap × DMap :=
  let sorted := pySorted rolls
  let st := ds.drop.foldl (dropStep sorted) (0, (sorted.length : Int), [])
  let left := st.1
  let right := st.2.1
  let to_drop := st.2.2
  let to_keep := ds.keep.foldl (keepStep sorted left right) []
  let result := if to_keep = [] then (pySlice sorted left right).sum else sumProd to_keep
  (result, to_keep, to_drop)

/-! ### Randomness model -/

/-- Evaluation state: an ambient stream of random words (`random`'s single
globally ordered source), the index of the next word, and the recorded
`(lo, hi)` bounds of every draw made so far, in order. -/
structure RState where
  rng : Nat → Nat
  idx : Nat
  log : List (Int × Int)

/-- `random.randint(lo, hi)`: raises `ValueError` when `hi < lo`, else draws
one stream word and maps it uniformly onto `[lo, hi]` (every value of
`[lo, hi]` is reachable for a suitable stream). -/
def randint (lo hi : Int) (s : RState) : Except PyErr (Int × RState) :=
  if hi < lo then .error .valueError
  else
    .ok (lo + ((s.rng s.idx % (hi - lo + 1).toNat : Nat) : Int),
      ⟨s.rng, s.idx + 1, s.log ++ [(lo, hi)]⟩)

/-- `[random.randint(lo, hi) for _ in range(n)]` (`evaluators.py` line 185). -/
def rollN : Nat → Int → Int → RState → Except PyErr (List Int × RState)
  | 0, _, _, s => .ok ([], s)
  | k + 1, lo, hi, s => do
    let (v, s1) ← randint lo hi s
    let (vs, s2) ← rollN k lo hi s1
    .ok (v :: vs, s2)

/-! ### Evaluator nodes (`evaluators.py`) -/

/-- A binary operator accepted by `BinaryOpEvaluatorNode`. -/
inductive Op where
  | add
  | sub
  | mul
  | div
  deriving DecidableEq

mutual
/-- The evaluator-node tree. `numF`/`numI`/`numN` are `NumberEvaluatorNode`
with `number_type` `'float'`/`'integer'`/`'natural_num'` (the token is kept
as the number it denotes). `listE1` is `ListEvaluatorNode(None, body)`,
`listE2` is `ListEvaluatorNode(count, body)`. -/
inductive Evtor where
  | numF (q : ℚ)
  | numI (n : Int)
  | numN (n : Int)
  | binopE (op : Op) (l r : Evtor)
  | diceE (numDice : Nat) (lo hi : Int) (dirs : Directives)
  | listE1 (body : Evtor)
  | listE2 (count : Evtor) (body : Evtor)
  | seqE (items : EvtorList)

/-- The children of a `SequenceEvaluatorNode`. -/
inductive EvtorList where
  | nil
  | cons (hd : Evtor) (tl : EvtorList)
end

/-- Convert a Lean list of nodes to the sequence-children representation. -/
def EvtorList.ofList : List Evtor → EvtorList
  | [] => .nil
  | e :: es => .cons e (EvtorList.ofList es)

/-- Result-tree nodes (`results.py`), with the fields the claims are about:
`raw_result` plus, for dice, `die_results`, `to_keep` and `to_drop`. -/
inductive ResultNode where
  | number (v : PyNum)
  | diceR (raw : Int) (die_results : List Int) (to_keep to_drop : DMap)
  | binopR (op : Op) (l r : ResultNode) (raw : PyNum)
  | listR (countR : ResultNode) (items : List ResultNode) (raw : Raw)
  | seqR (items : List ResultNode) (raw : Raw)

/-- The `raw_result` field of a result node. A dice result stores an `int`
total; a sequence stores the list of its children's raw results. -/
def ResultNode.raw_result : ResultNode → Raw
  | .number v => .num v
  | .diceR raw _ _ _ => .num (.int raw)
  | .binopR _ _ _ raw => .num raw
  | .listR _ _ raw => raw
  | .seqR _ raw => raw

/-- The `die_results` field of a dice result (empty for other nodes). -/
def dieResultsOf : ResultNode → List Int
  | .diceR _ dr _ _ => dr
  | _ => []

/-- `DiceRollEvaluatorNode.__init__` (`evaluators.py` lines 104-128) after
the regexes have split the dice token into its optional count and its sides
(`'f'`/`'F'` or digits): parse the directives first, then default the count
to 1, reject a non-positive count, pick the draw bounds (Fudge gives
`[-1, 1]`), and reject a single-sided die. -/
inductive SidesTok where
  | fudge
  | nsides (n : Nat)
  deriving DecidableEq

def diceInit (countStr : Option Nat) (sides : SidesTok) (toks : List DirTok) :
    Except PyErr Evtor := do
  let dirs ← parse_directives toks
  let numDice := countStr.getD 1
  if numDice = 0 then .error .valueError
  else
    let lo : Int := match sides with | .fudge => -1 | .nsides _ => 1
    let hi : Int := match sides with | .fudge => 1 | .nsides n => (n : Int)
    if lo = hi then .error .valueError
    else .ok (.diceE numDice lo hi dirs)

/-- `BinaryOpEvaluatorNode.__init__` (`evaluators.py` lines 74-83): the
operator must be one of `+ - * /`; the operands always expose `evaluate`. -/
def binaryOpInit (op : String) (l r : Evtor) : Except PyErr Evtor :=
  if op = "+" then .ok (.binopE .add l r)
  else if op = "-" then .ok (.binopE .sub l r)
  else if op = "*" then .ok (.binopE .mul l r)
  else if op = "/" then .ok (.binopE .div l r)
  else .error .valueError

/-- `SequenceEvaluatorNode.__init__` (`evaluators.py` lines 27-30): fewer
than two expressions raise `ValueError`. -/
def seqInit (items : List Evtor) : Except PyErr Evtor :=
  if items.length < 2 then .error .valueError else .ok (.seqE (.ofList items))

/-- The arithmetic of `BinaryOpEvaluatorNode.evaluate` (lines 89-96) on the
two operands' raw results. Both operands come from `expression` productions,
so they are numbers; `/` always produces a `float` and raises
`ZeroDivisionError` on a zero right operand. -/
def binOpApply : Op → Raw → Raw → Except PyErr PyNum
  | op, .num a, .num b =>
    match op with
    | .add => .ok (pyAdd a b)
    | .sub => .ok (pySub a b)
    | .mul => .ok (pyMul a b)
    | .div => if b.toQ = 0 then .error .zeroDivision else .ok (.float (a.toQ / b.toQ))
  | _, _, _ => .error .typeError

/-- The per-item rounding of `ListEvaluatorNode.evaluate` (lines 63-66): if
the first collected raw result is a leaf number, every collected value is
passed through `int(...)`; nested lists are left as they are. -/
def roundLeaves (raws : List Raw) : Except PyErr (List Raw) :=
  match raws.head? with
  | some (.num _) =>
      raws.mapM fun r =>
        match r with
        | .num v => .ok (Raw.num (.int (pyInt v)))
        | .list _ => .error .typeError
  | _ => .ok raws

/-- Evaluate `f` (the body's `evaluate`) `n` times, threading the random
state left to right (`evaluators.py` line 58). -/
def repeatEval (f : RState → Except PyErr (ResultNode × RState)) :
    Nat → RState → Except PyErr (List ResultNode × RState)
  | 0, s => .ok ([], s)
  | k + 1, s => do
    let (r, s1) ← f s
    let (rs, s2) ← repeatEval f k s1
    .ok (r :: rs, s2)

mutual
/-- `evaluate()` of each evaluator-node class, threading the random state. -/
def eval : Evtor → RState → Except PyErr (ResultNode × RState)
  | .numF q, s => .ok (.number (.float q), s)
  | .numI n, s => .ok (.number (.int n), s)
  | .numN n, s =>
    if n ≤ 0 then .error .valueError else .ok (.number (.int n), s)
  | .binopE op l r, s => do
    let (lr, s1) ← eval l s
    let (rr, s2) ← eval r s1
    match binOpApply op lr.raw_result rr.raw_result with
    | .error e => .error e
    | .ok v => .ok (.binopR op lr rr v, s2)
  | .diceE n lo hi dirs, s => do
    let (rolls, s1) ← rollN n lo hi s
    let out := apply_directives dirs rolls
    .ok (.diceR out.1 rolls out.2.1 out.2.2, s1)
  | .listE1 body, s => do
    let (r, s1) ← eval body s
    match pyIntOfRaw r.raw_result with
    | .error e => .error e
    | .ok n => .ok (.listR (.number (.int 1)) [r] (.num (.int n)), s1)
  | .listE2 count body, s => do
    let (cr, s1) ← eval count s
    match pyIntOfRaw cr.raw_result with
    | .error e => .error e
    | .ok n =>
      if n ≤ 0 then .ok (.listR cr [] (.list []), s1)
      else do
        let (items, s2) ← repeatEval (eval body) n.toNat s1
        match roundLeaves (items.map ResultNode.raw_result) with
        | .error e => .error e
        | .ok raws => .ok (.listR cr items (.list raws), s2)
  | .seqE items, s => do
    let (rs, s1) ← evalSeq items s
    .ok (.seqR rs (.list (rs.map ResultNode.raw_result)), s1)

/-- `SequenceEvaluatorNode.evaluate` body: items left to right. -/
def evalSeq : EvtorList → RState → Except PyErr (List ResultNode × RState)
  | .nil, s => .ok ([], s)
  | .cons e es, s => do
    let (r, s1) ← eval e s
    let (rs, s2) ← evalSeq es s1
    .ok (r :: rs, s2)
end

/-! ### Rendering (`results.py`) -/

/-- One iteration of the loop of `DiceResultNode.format_die_results`
(`results.py` lines 236-244) over the state
`(formatted, to_keep, to_drop, kept, dropped)`. Each `defaultdict` read —
`self.to_drop[die]`, `dropped[die]`, `self.to_keep[die]`, `kept[die]` —
inserts a zero entry for a missing key, and Python evaluates the reads left
to right, skipping the `elif` reads when the first branch is taken. -/
def fdrStep (st : List String × DMap × DMap × DMap × DMap) (die : Int) :
    List String × DMap × DMap × DMap × DMap :=
  let (formatted, to_keep, to_drop, kept, dropped) := st
  let (dv, to_drop1) := ddRead to_drop die
  let (lv, dropped1) := ddRead dropped die
  if lv < dv then
    (formatted ++ ["\x1b[91m" ++ toString die ++ "\x1b[0m"],
      to_keep, to_drop1, kept, bump dropped1 die)
  else
    let (kv, to_keep1) := ddRead to_keep die
    let (klv, kept1) := ddRead kept die
    if klv < kv then
      (formatted ++ ["\x1b[92m" ++ toString die ++ "\x1b[0m"],
        to_keep1, to_drop1, bump kept1 die, dropped1)
    else
      (formatted ++ [toString die], to_keep1, to_drop1, kept1, dropped1)

/-- `DiceResultNode.format_die_results` (`results.py` lines 228-245): takes
the node's `die_results`, `to_keep` and `to_drop` fields and returns the
formatted string together with the node's `to_keep` and `to_drop` fields as
they stand after the call (the `defaultdict` reads can have grown them). -/
def format_die_results (die_results : List Int) (to_keep to_drop : DMap) :
    String × DMap × DMap :=
  let st := die_results.foldl fdrStep ([], to_keep, to_drop, [], [])
  ("[" ++ String.intercalate ", " st.1 ++ "]", st.2.1, st.2.2.1)

/-- `DiceResultNode.pretty_print` with `colorize=True` (`results.py` lines
247-252): formats the die faces (mutating the count dicts as above) and
builds the one-line rendering; `raw_result` and `die_results` are only read. -/
def dicePrettyPrint (token : String) (raw : Int) (die_results : List Int)
    (to_keep to_drop : DMap) (indent : Nat) : String × DMap × DMap :=
  let out := format_die_results die_results to_keep to_drop
  (String.join (List.replicate indent "  ") ++ token ++ " => " ++ out.1 ++
      " = " ++ toString raw, out.2.1, out.2.2)

/-- The `meta` entry of `DiceResultNode.to_dict` (`results.py` lines
219-226): a pure read of `die_results`, `to_keep` and `to_drop`. -/
def diceToDictMeta (die_results : List Int) (to_keep to_drop : DMap) :
    List Int × DMap × DMap :=
  (die_results, to_keep, to_drop)

/-! ### The Lark transformer (`grammar.py`, `CalculateTree`) -/

/-- A terminal token of the grammar, carrying what it denotes. -/
inductive Tok where
  | diceTok (count : Option Nat) (sides : SidesTok)
  | dirTok (t : DirTok)
  | opTok (op : String)
  | floatTok (q : ℚ)
  | intTok (n : Int)
  | natTok (n : Int)
  | listSep
  | seqSep
  deriving DecidableEq

/-- A grammar rule with a transformer callback (the two binary-op rules
share one callback, `binary_op_md = binary_op_as`). `diceDirectives` has no
callback: Lark keeps the subtree, whose `.children` the `dice_roll` callback
then reads. -/
inductive Rule where
  | start
  | sequenceExpr
  | listExpr
  | parens
  | binaryOp
  | diceRoll
  | diceDirectives
  | floatRule
  | integerRule
  | naturalRule
  deriving DecidableEq

mutual
/-- A concrete Lark parse-tree node: an inner rule node or a token. -/
inductive PNode where
  | tree (r : Rule) (children : PForest)
  | tok (t : Tok)

/-- The ordered children of a parse-tree node. -/
inductive PForest where
  | nil
  | cons (hd : PNode) (tl : PForest)
end

/-- A transformed child value: an evaluator node, an untouched token, or the
kept `dice_roll_directives` subtree (a list of directive tokens). -/
inductive TVal where
  | ev (e : Evtor)
  | tk (t : Tok)
  | dirs (ds : List DirTok)

/-- `CalculateTree.start` (`grammar.py` lines 56-61): structural nodes pass
through, anything else is wrapped in an implicit repetition-of-one. -/
def startWrap (e : Evtor) : Evtor :=
  match e with
  | .listE1 _ => e
  | .listE2 _ _ => e
  | .seqE _ => e
  | _ => .listE1 e

/-- Collect the directive tokens kept under a `dice_roll_directives` node. -/
def dirToks (vals : List TVal) : Except PyErr (List DirTok) :=
  vals.mapM fun v =>
    match v with
    | .tk (.dirTok d) => .ok d
    | _ => .error .typeError

/-- One transformer callback of `CalculateTree` (`grammar.py` lines 50-99),
applied to the already-transformed children (Lark transforms bottom-up).
`sequenceExpr` is lines 63-68: its list comprehension filters the children
with `hasattr(arg, 'evaluate')`, but `arg` is an undefined name, so the
first iteration raises `NameError`; only an (unreachable) empty child list
avoids the comprehension body and reaches the arity check. Shapes of
children that the grammar cannot produce map to `TypeError`. -/
def applyRule : Rule → List TVal → Except PyErr TVal
  | .start, [.ev e] => .ok (.ev (startWrap e))
  | .sequenceExpr, [] => do
    let e ← seqInit []
    .ok (.ev e)
  | .sequenceExpr, _ => .error .nameError
  | .listExpr, [.ev e] => .ok (.ev (.listE1 e))
  | .listExpr, [.ev l, .tk .listSep, .ev r] => .ok (.ev (.listE2 l r))
  | .parens, [.ev e] => .ok (.ev e)
  | .binaryOp, [.ev l, .tk (.opTok op), .ev r] => do
    let e ← binaryOpInit op l r
    .ok (.ev e)
  | .diceRoll, [.tk (.diceTok c sides), .dirs ds] => do
    let e ← diceInit c sides ds
    .ok (.ev e)
  | .diceDirectives, vals => do
    let ds ← dirToks vals
    .ok (.dirs ds)
  | .floatRule, [.tk (.floatTok q)] => .ok (.ev (.numF q))
  | .integerRule, [.tk (.intTok n)] => .ok (.ev (.numI n))
  | .naturalRule, [.tk (.natTok n)] => .ok (.ev (.numN n))
  | _, _ => .error .typeError

mutual
/-- `transformer.transform`: transform the children bottom-up, then apply
the rule's callback; tokens pass through unchanged. -/
def transform : PNode → Except PyErr TVal
  | .tok t => .ok (.tk t)
  | .tree r cs => do
    let vs ← transformForest cs
    applyRule r vs

/-- Transform each child of a parse-tree node in order. -/
def transformForest : PForest → Except PyErr (List TVal)
  | .nil => .ok []
  | .cons c cs => do
    let v ← transform c
    let vs ← transformForest cs
    .ok (v :: vs)
end

/-! ### Spec-modelled rounding -/

/-- Modelled from the spec: the spec's `round_to_int` — "rounded to nearest
whole value" — which does not exist anywhere in the code; it is defined here
only to compare the spec's rounding law against the code's `int()`
truncation. `round` rounds to the nearest integer. -/
def round_to_int (q : ℚ) : Int := round q

/-! ### Shared concrete inputs -/

/-- An all-zeros random stream (each draw comes out at its lower bound). -/
def rng0 : Nat → Nat := fun _ => 0

/-- A fresh evaluation state over `rng0`. -/
def st0 : RState := ⟨rng0, 0, []⟩

/-! ### Helper lemmas -/

theorem sumProd_nil : sumProd [] = 0 := rfl

theorem sumProd_cons (p : Int × Nat) (t : DMap) :
    sumProd (p :: t) = p.1 * (p.2 : Int) + sumProd t := by
  simp [sumProd]

theorem bump_nil (k : Int) : bump [] k = [(k, 1)] := rfl

theorem bump_cons_eq (a : Int) (b : Nat) (t : DMap) :
    bump ((a, b) :: t) a = (a, b + 1) :: t := by
  simp [bump, dfind, dset]

theorem bump_cons_ne (a : Int) (b : Nat) (t : DMap) (k : Int) (hak : a ≠ k) :
    bump ((a, b) :: t) k = (a, b) :: bump t k := by
  unfold bump
  simp only [dfind, if_neg hak]
  cases h : dfind t k with
  | none => simp [dset]
  | some v => simp [dset, if_neg hak]

theorem sumProd_bump (m : DMap) (k : Int) : sumProd (bump m k) = sumProd m + k := by
  induction m with
  | nil => simp [bump_nil, sumProd]
  | cons p t ih =>
    obtain ⟨a, b⟩ := p
    by_cases hak : a = k
    · subst hak
      rw [bump_cons_eq, sumProd_cons, sumProd_cons]
      push_cast
      ring
    · rw [bump_cons_ne a b t k hak, sumProd_cons, sumProd_cons, ih]
      ring

theorem sumProd_foldl_bump (l : List Int) :
    ∀ m : DMap, sumProd (l.foldl bump m) = sumProd m + l.sum := by
  induction l with
  | nil => intro m; simp
  | cons x t ih =>
    intro m
    simp only [List.foldl_cons, List.sum_cons, ih (bump m x), sumProd_bump]
    ring

theorem dgetD_nil (v : Int) : dgetD [] v = 0 := rfl

theorem dgetD_cons (a : Int) (b : Nat) (t : DMap) (v : Int) :
    dgetD ((a, b) :: t) v = if a = v then b else dgetD t v := by
  simp only [dgetD, dfind]
  split <;> rfl

theorem dgetD_bump (m : DMap) (k v : Int) :
    dgetD (bump m k) v = dgetD m v + if v = k then 1 else 0 := by
  induction m with
  | nil =>
    rw [bump_nil, dgetD_cons, dgetD_nil]
    by_cases h : v = k
    · subst h; simp
    · have h2 : ¬ k = v := fun hh => h hh.symm
      simp [h, h2, dgetD_nil]
  | cons p t ih =>
    obtain ⟨a, b⟩ := p
    by_cases hak : a = k
    · subst hak
      rw [bump_cons_eq, dgetD_cons, dgetD_cons]
      by_cases hv : a = v
      · subst hv; simp
      · have h2 : ¬ v = a := fun hh => hv hh.symm
        simp [hv, h2]
    · rw [bump_cons_ne a b t k hak, dgetD_cons, dgetD_cons]
      by_cases hv : a = v
      · have h2 : ¬ v = k := by rw [← hv]; exact hak
        simp [hv, h2]
      · simp [hv, ih]

theorem dgetD_foldl_bump (l : List Int) :
    ∀ (m : DMap) (v : Int), dgetD (l.foldl bump m) v = dgetD m v + l.count v := by
  induction l with
  | nil => intro m v; simp
  | cons x t ih =>
    intro m v
    simp only [List.foldl_cons, ih (bump m x) v, dgetD_bump, List.count_cons]
    by_cases h : v = x
    · subst h; simp; omega
    · have h2 : ¬ x = v := fun hh => h hh.symm
      simp [h, h2]

theorem bump_ne_nil (m : DMap) (k : Int) : bump m k ≠ [] := by
  unfold bump
  cases h : dfind m k with
  | none => simp
  | some v =>
    cases m with
    | nil => simp [dfind] at h
    | cons p t =>
      obtain ⟨a, b⟩ := p
      simp only [dset]
      split <;> simp

theorem foldl_bump_ne_nil (l : List Int) :
    ∀ m : DMap, m ≠ [] → l.foldl bump m ≠ [] := by
  induction l with
  | nil => intro m hm; simpa using hm
  | cons x t ih =>
    intro m _
    simp only [List.foldl_cons]
    exact ih (bump m x) (bump_ne_nil m x)

theorem foldl_bump_ne_nil_of_ne_nil (l : List Int) (m : DMap) (hl : l ≠ []) :
    l.foldl bump m ≠ [] := by
  cases l with
  | nil => exact absurd rfl hl
  | cons x t =>
    simp only [List.foldl_cons]
    exact foldl_bump_ne_nil t (bump m x) (bump_ne_nil m x)

theorem pyIdx_coe (n a : Nat) : pyIdx n (a : Int) = min a n := by
  unfold pyIdx
  split <;> omega

theorem pySlice_coe {α : Type} (l : List α) (a b : Nat) :
    pySlice l (a : Int) (b : Int) =
      (l.take (min b l.length)).drop (min a l.length) := by
  simp [pySlice, pyIdx_coe]

theorem pySorted_length (l : List Int) : (pySorted l).length = l.length :=
  (List.perm_insertionSort _ l).length_eq

theorem randint_ok_bounds (lo hi : Int) (s : RState) (v : Int) (s' : RState)
    (h : randint lo hi s = .ok (v, s')) : lo ≤ v ∧ v ≤ hi := by
  unfold randint at h
  split at h
  · exact absurd h (by simp)
  · rename_i hge
    have hlohi : lo ≤ hi := by omega
    have htpos : 0 < (hi - lo + 1).toNat := by omega
    have hmod : s.rng s.idx % (hi - lo + 1).toNat < (hi - lo + 1).toNat :=
      Nat.mod_lt _ htpos
    have hv : v = lo + ((s.rng s.idx % (hi - lo + 1).toNat : Nat) : Int) := by
      have := congrArg (fun x : Except PyErr (Int × RState) =>
        match x with | .ok p => p.1 | .error _ => 0) h
      simpa using this.symm
    omega

theorem rollN_ok_bounds (lo hi : Int) :
    ∀ (n : Nat) (s : RState) (vs : List Int) (s' : RState),
      rollN n lo hi s = .ok (vs, s') → ∀ x ∈ vs, lo ≤ x ∧ x ≤ hi := by
  intro n
  induction n with
  | zero =>
    intro s vs s' h x hx
    simp only [rollN] at h
    obtain ⟨h1, _⟩ := by simpa using h
    subst h1
    simp at hx
  | succ k ih =>
    intro s vs s' h x hx
    rw [rollN] at h
    cases h1 : randint lo hi s with
    | error e => rw [h1] at h; simp only [Bind.bind, Except.bind] at h; exact absurd h (by simp)
    | ok p =>
      obtain ⟨v, s1⟩ := p
      rw [h1] at h
      simp only [Bind.bind, Except.bind] at h
      cases h2 : rollN k lo hi s1 with
      | error e => rw [h2] at h; exact absurd h (by simp)
      | ok q =>
        obtain ⟨vs1, s2⟩ := q
        rw [h2] at h
        simp only [Except.ok.injEq, Prod.mk.injEq] at h
        obtain ⟨hvs, _⟩ := h
        subst hvs
        rcases List.mem_cons.1 hx with hx1 | hx2
        · subst hx1; exact randint_ok_bounds lo hi s x s1 h1
        · exact ih s1 vs1 s2 h2 x hx2

/-! ### Concrete parse trees (shapes fixed by the repository's parsing tests) -/

/-- The parse tree of `"8/2"`, as fixed by the repository's parsing tests
(`BASIC_PARSING_CASES["basic_arithmetic"]`). -/
def parseTree8div2 : PNode :=
  .tree .start (.cons
    (.tree .listExpr (.cons
      (.tree .binaryOp (.cons
        (.tree .naturalRule (.cons (.tok (.natTok 8)) .nil))
        (.cons (.tok (.opTok "/"))
          (.cons (.tree .naturalRule (.cons (.tok (.natTok 2)) .nil)) .nil))))
      .nil))
    .nil)

/-- The parse tree of a dice-roll expression token with no directives. -/
def diceTree (c : Option Nat) (sides : SidesTok) : PNode :=
  .tree .diceRoll (.cons (.tok (.diceTok c sides))
    (.cons (.tree .diceDirectives .nil) .nil))

/-- The parse tree of `"1d20+10+d6"` (left-associated chain of `+`). -/
def parseTreeSeqLeft : PNode :=
  .tree .binaryOp (.cons
    (.tree .binaryOp (.cons (diceTree (some 1) (.nsides 20))
      (.cons (.tok (.opTok "+"))
        (.cons (.tree .naturalRule (.cons (.tok (.natTok 10)) .nil)) .nil))))
    (.cons (.tok (.opTok "+")) (.cons (diceTree none (.nsides 6)) .nil)))

/-- The parse tree of `"d6+5+2d6"` (left-associated chain of `+`). -/
def parseTreeSeqRight : PNode :=
  .tree .binaryOp (.cons
    (.tree .binaryOp (.cons (diceTree none (.nsides 6))
      (.cons (.tok (.opTok "+"))
        (.cons (.tree .naturalRule (.cons (.tok (.natTok 5)) .nil)) .nil))))
    (.cons (.tok (.opTok "+")) (.cons (diceTree (some 2) (.nsides 6)) .nil)))

/-- The parse tree of `"1d20+10+d6, d6+5+2d6"`, following the sequence shape
fixed by the repository's parsing tests (`seq_tree`): the two transformed
`list_expression` children with the `SEQUENCE_SEP` token between them. -/
def parseTreeSeq : PNode :=
  .tree .start (.cons
    (.tree .sequenceExpr (.cons
      (.tree .listExpr (.cons parseTreeSeqLeft .nil))
      (.cons (.tok .seqSep)
        (.cons (.tree .listExpr (.cons parseTreeSeqRight .nil)) .nil))))
    .nil)

/-- The parse tree of `"2d6+1d8"`. -/
def parseTree2d6p1d8 : PNode :=
  .tree .start (.cons
    (.tree .listExpr (.cons
      (.tree .binaryOp (.cons (diceTree (some 2) (.nsides 6))
        (.cons (.tok (.opTok "+")) (.cons (diceTree (some 1) (.nsides 8)) .nil))))
      .nil))
    .nil)

/-- The evaluator tree the transformer produces for `"2d6+1d8"`. -/
def tree2d6p1d8 : Evtor :=
  .listE1 (.binopE .add (.diceE 2 1 6 ⟨[], []⟩) (.diceE 1 1 8 ⟨[], []⟩))

/-! ### Claim theorems -/

/-- Claim C1, counterexample: a Fudge die (`dF`, draw bounds `[-1, 1]`) can
come up `0`. `DiceRollEvaluatorNode.__init__` accepts the bare `dF` token as
one die with bounds `-1` and `1`, and on the stream whose every word is `1`
the single draw is `-1 + (1 % 3) = 0` — an outcome that is neither `-1` nor
`1`, so the two-valued claim is false (the repository's own tests expect a
`0` among `4dF` outcomes). -/
theorem c1_fudge_claim_counterexample :
    diceInit none .fudge [] = .ok (.diceE 1 (-1) 1 ⟨[], []⟩) ∧
    (eval (.diceE 1 (-1) 1 ⟨[], []⟩) ⟨fun _ => 1, 0, []⟩).map
      (fun p => dieResultsOf p.1) = .ok [0] ∧
    ¬ ((0 : Int) = -1 ∨ (0 : Int) = 1) :=
  ⟨rfl, rfl, by decide⟩

/-- Claim C2, counterexample: `4d6 dl1 kh0` on sorted outcomes
`[1, 2, 3, 4]`. The claim's "sum of the top `j` kept values" is `0` for
`j = 0`, but with a keep count of `0` the `to_keep` dict stays empty and
`apply_directives` falls back to the drop-narrowed window sum `2+3+4 = 9`. -/
theorem c2_keep_zero_counterexample :
    (apply_directives ⟨[(.low, 1)], [(.high, 0)]⟩ [1, 2, 3, 4]).1 = 9 ∧
    (apply_directives ⟨[(.low, 1)], [(.high, 0)]⟩ [1, 2, 3, 4]).2.1 = [] ∧
    (((pySorted [1, 2, 3, 4]).drop 1).drop
      (((pySorted [1, 2, 3, 4]).drop 1).length - 0)).sum = 0 ∧
    (9 : Int) ≠ 0 :=
  ⟨rfl, rfl, rfl, by decide⟩

/-- Claim C3, counterexample: two `dl1` directives on a roll of
`[1, 2, 3]`. The claim says same-direction drops compose (remove `1 + 1 = 2`
low values, total `3`), but `parse_directives` stores drops in a dict keyed
by direction, so the second `dl1` overwrites the first and only one value is
dropped: the total is `2 + 3 = 5`. -/
theorem c3_same_direction_drops_counterexample :
    parse_directives [⟨.drop, .low, 1⟩, ⟨.drop, .low, 1⟩] = .ok ⟨[(.low, 1)], []⟩ ∧
    (apply_directives ⟨[(.low, 1)], []⟩ [1, 2, 3]).1 = 5 ∧
    ((pySorted [1, 2, 3]).drop (1 + 1)).sum = 3 ∧
    (5 : Int) ≠ 3 :=
  ⟨rfl, rfl, rfl, by decide⟩

/-- Claim C4, counterexample: the float expression `1.9`. Its value
`round_to_int`-rounds to `2`, but `ListEvaluatorNode.evaluate` with no count
applies Python `int(...)`, which truncates toward zero: the wrapped
raw result is `1`. -/
theorem c4_round_counterexample :
    (eval (.numF (mkRat 19 10)) st0).map (fun p => p.1.raw_result) =
      .ok (.num (.float (mkRat 19 10))) ∧
    (eval (.listE1 (.numF (mkRat 19 10))) st0).map (fun p => p.1.raw_result) =
      .ok (.num (.int 1)) ∧
    round_to_int (mkRat 19 10) = 2 ∧
    (1 : Int) ≠ 2 := by
  refine ⟨rfl, rfl, ?_, by decide⟩
  rw [round_to_int, Rat.mkRat_eq_div]
  norm_num [round_eq]

/-- Claim C5, counterexample: evaluating `"8/2"` end to end. The transformer
wraps the division in the implicit repetition-of-one list node, whose
`evaluate` passes the float `4.0` through `int(...)`: the top-level
`raw_result` is the integer `4`, not a floating-point value. -/
theorem c5_division_float_counterexample :
    transform parseTree8div2 =
      .ok (.ev (.listE1 (.binopE .div (.numN 8) (.numN 2)))) ∧
    (eval (.listE1 (.binopE .div (.numN 8) (.numN 2))) st0).map
      (fun p => p.1.raw_result) = .ok (.num (.int 4)) ∧
    PyNum.isFloat (.int 4) = false := by
  refine ⟨rfl, ?_, rfl⟩
  simp [eval, Bind.bind, Except.bind, Except.map, binOpApply, PyNum.toQ,
    ResultNode.raw_result, st0, pyIntOfRaw, pyInt, truncQ]
  have h48 : (8 / 2 : ℚ) = 4 := by norm_num
  rw [h48]
  norm_num

/-- Claim C5, amended: parsing and transforming `"8/2"` yields the division
wrapped in the implicit list node; the division itself produces the float
`4.0` (division is always floating), and the top-level result truncates it
to the integer `4`, consuming no randomness. -/
theorem c5_eight_over_two :
    transform parseTree8div2 =
      .ok (.ev (.listE1 (.binopE .div (.numN 8) (.numN 2)))) ∧
    (eval (.binopE .div (.numN 8) (.numN 2)) st0).map
      (fun p => (p.1.raw_result, p.2.idx, p.2.log)) =
      .ok (.num (.float 4), 0, []) ∧
    (eval (.listE1 (.binopE .div (.numN 8) (.numN 2))) st0).map
      (fun p => (p.1.raw_result, p.2.idx, p.2.log)) =
      .ok (.num (.int 4), 0, []) := by
  refine ⟨rfl, ?_, ?_⟩
  · simp [eval, Bind.bind, Except.bind, Except.map, binOpApply, PyNum.toQ,
      ResultNode.raw_result, st0]
    norm_num
  · simp [eval, Bind.bind, Except.bind, Except.map, binOpApply, PyNum.toQ,
      ResultNode.raw_result, st0, pyIntOfRaw, pyInt, truncQ]
    have h48 : (8 / 2 : ℚ) = 4 := by norm_num
    rw [h48]
    norm_num

/-- Claim C8: transforming the parse tree of
`"1d20+10+d6, d6+5+2d6"` raises `NameError`, because
`CalculateTree.sequence_expression` filters its children with
`hasattr(arg, 'evaluate')` where `arg` is an undefined name. The claimed
successful Sequence evaluation is unreachable. -/
theorem c8_sequence_transform_name_error :
    transform parseTreeSeq = .error .nameError :=
  rfl

/-- Claim C10: rendering mutates the dice result's face-count dicts.
Evaluating `2d6 dl1` with draws `2, 1` produces the result node with
`die_results = [2, 1]`, `to_keep = {}`, `to_drop = {1: 1}`; the die-face
formatting of `pretty_print` then reads `to_drop[2]`, `to_keep[2]` on the
`defaultdict`s, inserting zero-count entries: afterwards
`to_keep = {2: 0}` and `to_drop = {1: 1, 2: 0}`, so the `to_dict` meta
(and any later structured render) differs from what it was before
rendering, contradicting the never-mutated contract. `raw_result` and
`die_results` are untouched and no randomness is drawn. -/
theorem c10_render_mutates_counts :
    (eval (.diceE 2 1 6 ⟨[(.low, 1)], []⟩) ⟨fun n => if n = 0 then 1 else 0, 0, []⟩).map
      (fun p => p.1) = .ok (.diceR 2 [2, 1] [] [(1, 1)]) ∧
    format_die_results [2, 1] [] [(1, 1)] =
      ("[2, \x1b[91m1\x1b[0m]", [(2, 0)], [(1, 1), (2, 0)]) ∧
    diceToDictMeta [2, 1] [(2, 0)] [(1, 1), (2, 0)] ≠
      diceToDictMeta [2, 1] [] [(1, 1)] :=
  ⟨rfl, rfl, by decide⟩

/-- Claim C1, amended: every die outcome of an evaluated Fudge roll (a
`DiceRoll` whose sides token is `dF`/`df`, constructed by
`DiceRollEvaluatorNode.__init__` with draw bounds `-1` and `1`) lies in the
three-valued range `[-1, 1]`; `0` can be drawn. -/
theorem c1_fudge_outcomes_in_range (countStr : Option Nat) (toks : List DirTok)
    (nd : Evtor) (hinit : diceInit countStr .fudge toks = .ok nd) (s : RState)
    (r : ResultNode) (s2 : RState) (heval : eval nd s = .ok (r, s2)) :
    ∀ x ∈ dieResultsOf r, -1 ≤ x ∧ x ≤ 1 := by
  cases hp : parse_directives toks with
  | error e =>
    rw [diceInit] at hinit
    rw [hp] at hinit
    exact absurd hinit (by simp [Bind.bind, Except.bind])
  | ok dirs =>
    rw [diceInit] at hinit
    rw [hp] at hinit
    simp only [Bind.bind, Except.bind] at hinit
    by_cases hn : countStr.getD 1 = 0
    · rw [if_pos hn] at hinit
      exact absurd hinit (by simp)
    · rw [if_neg hn] at hinit
      norm_num at hinit
      subst hinit
      rw [eval] at heval
      cases hr : rollN (countStr.getD 1) (-1) 1 s with
      | error e =>
        rw [hr] at heval
        simp only [Bind.bind, Except.bind] at heval
        exact absurd heval (by simp)
      | ok p =>
        obtain ⟨rolls, s1⟩ := p
        rw [hr] at heval
        simp only [Bind.bind, Except.bind, Except.ok.injEq, Prod.mk.injEq] at heval
        obtain ⟨hrr, _⟩ := heval
        subst hrr
        intro x hx
        exact rollN_ok_bounds (-1) 1 (countStr.getD 1) s rolls s1 hr x hx

/-- Witness for C1's amended theorem: the concrete roll `4dF` over the
all-zeros stream satisfies its hypotheses, and the theorem applies to the
outcome `-1`. -/
theorem c1_fudge_outcomes_in_range_witness :
    diceInit (some 4) .fudge [] = .ok (.diceE 4 (-1) 1 ⟨[], []⟩) ∧
    eval (.diceE 4 (-1) 1 ⟨[], []⟩) st0 =
      .ok (.diceR (-4) [-1, -1, -1, -1] [] [],
        ⟨rng0, 4, [(-1, 1), (-1, 1), (-1, 1), (-1, 1)]⟩) ∧
    ((-1 : Int) ≤ -1 ∧ (-1 : Int) ≤ 1) :=
  ⟨rfl, rfl,
    c1_fudge_outcomes_in_range (some 4) [] (.diceE 4 (-1) 1 ⟨[], []⟩) rfl st0
      (.diceR (-4) [-1, -1, -1, -1] [] [])
      ⟨rng0, 4, [(-1, 1), (-1, 1), (-1, 1), (-1, 1)]⟩ rfl (-1) (by decide)⟩

/-- Claim C2, amended: for a roll of `k` dice, a Drop-Low of count `m`
combined with a Keep-High of count `j` with `m + j ≤ k` and `j ≥ 1` makes
the total the sum of the top `j` values of the sorted outcomes past the
first `m` (`O[m:]`), and the kept face counts are exactly the multiset of
those top `j` values. (For `j = 0` the keep dict stays empty and the code
instead returns the drop-narrowed window sum — see the counterexample.) -/
theorem c2_drop_low_keep_high (m j : Nat) (rolls : List Int)
    (hj : 1 ≤ j) (hmj : m + j ≤ rolls.length) :
    (apply_directives ⟨[(.low, m)], [(.high, j)]⟩ rolls).1 =
      (((pySorted rolls).drop m).drop (((pySorted rolls).drop m).length - j)).sum ∧
    ∀ v : Int,
      dgetD (apply_directives ⟨[(.low, m)], [(.high, j)]⟩ rolls).2.1 v =
        (((pySorted rolls).drop m).drop (((pySorted rolls).drop m).length - j)).count v := by
  have hlen : (pySorted rolls).length = rolls.length := pySorted_length rolls
  have hjk : j ≤ (pySorted rolls).length := by omega
  have hkept : ((pySorted rolls).drop m).drop (((pySorted rolls).drop m).length - j) =
      (pySorted rolls).drop ((pySorted rolls).length - j) := by
    rw [List.length_drop, List.drop_drop]
    congr 1
    omega
  have hslice : pySlice (pySorted rolls) (((pySorted rolls).length : Int) - (j : Int))
      ((pySorted rolls).length : Int) = (pySorted rolls).drop ((pySorted rolls).length - j) := by
    rw [← Nat.cast_sub hjk, pySlice_coe]
    rw [Nat.min_self, List.take_length, Nat.min_eq_left (by omega)]
  have hne : (pySorted rolls).drop ((pySorted rolls).length - j) ≠ [] := by
    have hpos : 0 < ((pySorted rolls).drop ((pySorted rolls).length - j)).length := by
      rw [List.length_drop]
      omega
    exact List.ne_nil_of_length_pos hpos
  have hfold : (pySlice (pySorted rolls) (((pySorted rolls).length : Int) - (j : Int))
      ((pySorted rolls).length : Int)).foldl bump [] ≠ [] := by
    rw [hslice]
    exact foldl_bump_ne_nil_of_ne_nil _ _ hne
  constructor
  · simp only [apply_directives, List.foldl_cons, List.foldl_nil, dropStep, keepStep]
    rw [if_neg hfold, hkept, sumProd_foldl_bump, sumProd_nil, hslice]
    omega
  · intro v
    simp only [apply_directives, List.foldl_cons, List.foldl_nil, dropStep, keepStep]
    rw [hkept, hslice, dgetD_foldl_bump, dgetD_nil]
    omega

/-- Witness for C2's amended theorem: `dl1 kh2` on the roll `[3, 1, 2, 4]`
(`m = 1`, `j = 2`, `k = 4`). -/
theorem c2_drop_low_keep_high_witness :
    (1 ≤ 2) ∧ (1 + 2 ≤ ([3, 1, 2, 4] : List Int).length) ∧
    ((apply_directives ⟨[(.low, 1)], [(.high, 2)]⟩ [3, 1, 2, 4]).1 =
      (((pySorted [3, 1, 2, 4]).drop 1).drop
        (((pySorted [3, 1, 2, 4]).drop 1).length - 2)).sum) ∧
    dgetD (apply_directives ⟨[(.low, 1)], [(.high, 2)]⟩ [3, 1, 2, 4]).2.1 3 =
      (((pySorted [3, 1, 2, 4]).drop 1).drop
        (((pySorted [3, 1, 2, 4]).drop 1).length - 2)).count 3 :=
  ⟨by decide, by decide,
    (c2_drop_low_keep_high 1 2 [3, 1, 2, 4] (by decide) (by decide)).1,
    (c2_drop_low_keep_high 1 2 [3, 1, 2, 4] (by decide) (by decide)).2 3⟩

/-- Claim C3, amended: Drop directives of different directions compose —
with a drop-low of count `m` and a drop-high of count `h`, `m + h ≤ k`, the
total is the sum of the sorted window `O[m : k-h]`, whichever order the two
directives were given in. Same-direction drops do **not** compose: the
directives dict keeps one count per direction, so a later `dl`/`dh` token
overwrites an earlier one of the same direction (first conjunct). -/
theorem c3_drop_directives (c1 c2 m hc : Nat) (rolls : List Int)
    (hmh : m + hc ≤ rolls.length) :
    parse_directives [⟨.drop, .low, c1⟩, ⟨.drop, .low, c2⟩] = .ok ⟨[(.low, c2)], []⟩ ∧
    (apply_directives ⟨[(.low, m), (.high, hc)], []⟩ rolls).1 =
      (((pySorted rolls).take (rolls.length - hc)).drop m).sum ∧
    (apply_directives ⟨[(.high, hc), (.low, m)], []⟩ rolls).1 =
      (((pySorted rolls).take (rolls.length - hc)).drop m).sum := by
  have hlen : (pySorted rolls).length = rolls.length := pySorted_length rolls
  have hslice : pySlice (pySorted rolls) ((0 : Int) + (m : Int))
      (((pySorted rolls).length : Int) - (hc : Int)) =
      ((pySorted rolls).take ((pySorted rolls).length - hc)).drop m := by
    have hhk : hc ≤ (pySorted rolls).length := by omega
    rw [zero_add, ← Nat.cast_sub hhk, pySlice_coe]
    rw [Nat.min_eq_left (by omega), Nat.min_eq_left (by omega)]
  refine ⟨?_, ?_, ?_⟩
  · simp [parse_directives, setHL]
  · simp only [apply_directives, List.foldl_cons, List.foldl_nil, dropStep, keepStep,
      if_true]
    rw [hslice, hlen]
  · simp only [apply_directives, List.foldl_cons, List.foldl_nil, dropStep, keepStep,
      if_true]
    rw [hslice, hlen]

/-- Witness for C3's amended theorem: overwriting counts `2` then `3`, and
`dl1` with `dh1` on the roll `[5, 1, 4, 2]`. -/
theorem c3_drop_directives_witness :
    (1 + 1 ≤ ([5, 1, 4, 2] : List Int).length) ∧
    parse_directives [⟨.drop, .low, 2⟩, ⟨.drop, .low, 3⟩] = .ok ⟨[(.low, 3)], []⟩ ∧
    (apply_directives ⟨[(.low, 1), (.high, 1)], []⟩ [5, 1, 4, 2]).1 =
      (((pySorted [5, 1, 4, 2]).take (([5, 1, 4, 2] : List Int).length - 1)).drop 1).sum ∧
    (apply_directives ⟨[(.high, 1), (.low, 1)], []⟩ [5, 1, 4, 2]).1 =
      (((pySorted [5, 1, 4, 2]).take (([5, 1, 4, 2] : List Int).length - 1)).drop 1).sum :=
  ⟨by decide,
    (c3_drop_directives 2 3 1 1 [5, 1, 4, 2] (by decide)).1,
    (c3_drop_directives 2 3 1 1 [5, 1, 4, 2] (by decide)).2.1,
    (c3_drop_directives 2 3 1 1 [5, 1, 4, 2] (by decide)).2.2⟩

/-- Claim C4, amended: for a body expression evaluating to a float value
`q`, the implicit `ListRepeat(None, body)` wrapper wraps the raw result as
the integer obtained by Python `int(q)` — truncation toward zero, not
rounding to nearest. -/
theorem c4_list_boundary_truncates (body : Evtor) (s s1 : RState)
    (br : ResultNode) (q : ℚ) (h1 : eval body s = .ok (br, s1))
    (h2 : br.raw_result = .num (.float q)) :
    eval (.listE1 body) s =
      .ok (.listR (.number (.int 1)) [br] (.num (.int (truncQ q))), s1) := by
  simp only [eval, Bind.bind, Except.bind, h1, h2, pyIntOfRaw, pyInt]

/-- Witness for C4's amended theorem: the float literal `1.9` truncates to
`1` at the list boundary, and `-3.5` truncates toward zero to `-3` — the
value the repository's own eval test expects — not to the floor `-4`. -/
theorem c4_list_boundary_truncates_witness :
    eval (.numF (mkRat 19 10)) st0 = .ok (.number (.float (mkRat 19 10)), st0) ∧
    ResultNode.raw_result (.number (.float (mkRat 19 10))) =
      .num (.float (mkRat 19 10)) ∧
    eval (.listE1 (.numF (mkRat 19 10))) st0 =
      .ok (.listR (.number (.int 1)) [.number (.float (mkRat 19 10))]
        (.num (.int (truncQ (mkRat 19 10)))), st0) ∧
    truncQ (mkRat 19 10) = 1 ∧
    eval (.listE1 (.numF (mkRat (-35) 10))) st0 =
      .ok (.listR (.number (.int 1)) [.number (.float (mkRat (-35) 10))]
        (.num (.int (truncQ (mkRat (-35) 10)))), st0) ∧
    truncQ (mkRat (-35) 10) = -3 :=
  ⟨rfl, rfl,
    c4_list_boundary_truncates (.numF (mkRat 19 10)) st0 st0
      (.number (.float (mkRat 19 10))) (mkRat 19 10) rfl rfl,
    rfl,
    c4_list_boundary_truncates (.numF (mkRat (-35) 10)) st0 st0
      (.number (.float (mkRat (-35) 10))) (mkRat (-35) 10) rfl rfl,
    rfl⟩

/-- Claim C6: a `ListRepeat` whose count expression evaluates to an integer
`n ≤ 0` returns a `ListResult` with no items and an empty value sequence,
raises no error, and never invokes the body's `evaluate` — the outcome and
the final random state are those after the count evaluation alone, and they
do not depend on the body at all. -/
theorem c6_nonpositive_count (c b b2 : Evtor) (s : RState) (cr : ResultNode)
    (s1 : RState) (n : Int) (h1 : eval c s = .ok (cr, s1))
    (h2 : pyIntOfRaw cr.raw_result = .ok n) (h3 : n ≤ 0) :
    eval (.listE2 c b) s = .ok (.listR cr [] (.list []), s1) ∧
    eval (.listE2 c b) s = eval (.listE2 c b2) s := by
  have key : ∀ d : Evtor, eval (.listE2 c d) s = .ok (.listR cr [] (.list []), s1) := by
    intro d
    simp only [eval, Bind.bind, Except.bind, h1, h2, if_pos h3]
  exact ⟨key b, (key b).trans (key b2).symm⟩

/-- Witness for C6: count `-3` with a dice-roll body (no draw happens; the
result is the same as with a number body). -/
theorem c6_nonpositive_count_witness :
    eval (.numI (-3)) st0 = .ok (.number (.int (-3)), st0) ∧
    pyIntOfRaw (ResultNode.raw_result (.number (.int (-3)))) = .ok (-3) ∧
    ((-3 : Int) ≤ 0) ∧
    (eval (.listE2 (.numI (-3)) (.diceE 1 1 6 ⟨[], []⟩)) st0 =
      .ok (.listR (.number (.int (-3))) [] (.list []), st0) ∧
    eval (.listE2 (.numI (-3)) (.diceE 1 1 6 ⟨[], []⟩)) st0 =
      eval (.listE2 (.numI (-3)) (.numN 7)) st0) :=
  ⟨rfl, rfl, by decide,
    c6_nonpositive_count (.numI (-3)) (.diceE 1 1 6 ⟨[], []⟩) (.numN 7) st0
      (.number (.int (-3))) st0 (-3) rfl rfl (by decide)⟩

/-- Claim C7: when both operands of a `BinaryOp` evaluate successfully to
numbers, its evaluation raises the division-by-zero error if and only if
the operator is `/` and the right operand's value is exactly zero; the
check happens only at evaluation (both operands having been evaluated
first), while construction of a `/` node succeeds with no pre-validation of
the right operand. -/
theorem c7_division_by_zero (op : Op) (l r : Evtor) (s : RState)
    (lr rr : ResultNode) (s1 s2 : RState) (a b : PyNum)
    (h1 : eval l s = .ok (lr, s1)) (h2 : eval r s1 = .ok (rr, s2))
    (h3 : lr.raw_result = .num a) (h4 : rr.raw_result = .num b) :
    ((eval (.binopE op l r) s = .error .zeroDivision) ↔ (op = .div ∧ b.toQ = 0)) ∧
    binaryOpInit "/" l r = .ok (.binopE .div l r) := by
  refine ⟨?_, rfl⟩
  have hb : eval (.binopE op l r) s =
      match binOpApply op lr.raw_result rr.raw_result with
      | .error e => .error e
      | .ok v => .ok (.binopR op lr rr v, s2) := by
    simp only [eval, Bind.bind, Except.bind, h1, h2]
  rw [hb, h3, h4]
  cases op with
  | add => simp [binOpApply]
  | sub => simp [binOpApply]
  | mul => simp [binOpApply]
  | div =>
    by_cases hz : b.toQ = 0
    · simp [binOpApply, hz]
    · simp [binOpApply, hz]

/-- Witness for C7: `5 / 0` raises the division-by-zero error, and the
`/` node is constructed without complaint. -/
theorem c7_division_by_zero_witness :
    eval (.numN 5) st0 = .ok (.number (.int 5), st0) ∧
    eval (.numI 0) st0 = .ok (.number (.int 0), st0) ∧
    (((eval (.binopE .div (.numN 5) (.numI 0)) st0 = .error .zeroDivision) ↔
      (Op.div = Op.div ∧ PyNum.toQ (.int 0) = 0)) ∧
    binaryOpInit "/" (.numN 5) (.numI 0) = .ok (.binopE .div (.numN 5) (.numI 0))) :=
  ⟨rfl, rfl,
    c7_division_by_zero .div (.numN 5) (.numI 0) st0 (.number (.int 5))
      (.number (.int 0)) st0 st0 (.int 5) (.int 0) rfl rfl rfl rfl⟩

/-- Claim C9: evaluating `"2d6+1d8"` (its transformer output, over any
random stream) consumes exactly three draws, the first two bounded to
`[1, 6]` and the third to `[1, 8]`, in that order — the left operand's dice
are drawn before the right operand's die. -/
theorem c9_draw_order (rng : Nat → Nat) :
    transform parseTree2d6p1d8 = .ok (.ev tree2d6p1d8) ∧
    (eval tree2d6p1d8 ⟨rng, 0, []⟩).map (fun p => (p.2.idx, p.2.log)) =
      .ok (3, [(1, 6), (1, 6), (1, 8)]) := by
  refine ⟨rfl, ?_⟩
  simp [tree2d6p1d8, eval, rollN, randint, Bind.bind, Except.bind, Except.map,
    pyIntOfRaw, pyInt, ResultNode.raw_result, binOpApply, pyAdd]

/-- Witness for C9: the draw log over the all-zeros stream. -/
theorem c9_draw_order_witness :
    transform parseTree2d6p1d8 = .ok (.ev tree2d6p1d8) ∧
    (eval tree2d6p1d8 ⟨rng0, 0, []⟩).map (fun p => (p.2.idx, p.2.log)) =
      .ok (3, [(1, 6), (1, 6), (1, 8)]) :=
  c9_draw_order rng0

end AstRoller
